import Mathlib

/-!
# Verification of the Penuel Stopover operating-hours evaluator

Shallow embedding of the hours-status logic of
`src/js/contact-manager.js` (class `ContactManager`):
`timeStringToNumber`, the per-unit body of `checkCurrentStatus`,
and the display-line / status-badge logic of `createHoursCard`.

JS objects are modelled as association lists (`List (String × α)`)
in insertion order; a possibly-absent JS field is an `Option`;
a JS number that may be `NaN` is an `Option Int` (`none` = `NaN`);
statuses are the JS strings `"open"` / `"closed"`.
-/

/-- JS `a || b` on object-valued expressions (an object is truthy,
`undefined` is falsy). -/
def jsOr {α : Type} : Option α → Option α → Option α
  | some a, _ => some a
  | none, b => b

/-- JS truthiness of an optional string field: present and non-empty. -/
def truthyS : Option String → Bool
  | some s => s ≠ ""
  | none => false

/-- JS property read `obj[k]` on an object modelled as an association list. -/
def alookup {α : Type} : List (String × α) → String → Option α
  | [], _ => none
  | p :: ps, k => if p.1 = k then some p.2 else alookup ps k

/-- JS property write `obj[k] = v`: overwrite in place if the key exists,
otherwise append (JS objects keep insertion order of keys). -/
def setKey {α : Type} : List (String × α) → String → α → List (String × α)
  | [], k, v => [(k, v)]
  | p :: ps, k, v => if p.1 = k then (k, v) :: ps else p :: setKey ps k v

/-- The key sequence of a modelled JS object. -/
def keys {α : Type} (l : List (String × α)) : List String :=
  l.map Prod.fst

/-- Accumulate the decimal value of a leading digit run
(the scanning loop inside JS `parseInt`). -/
def digitsAcc (acc : Nat) : List Char → Nat
  | [] => acc
  | c :: cs => if c.isDigit then digitsAcc (acc * 10 + (c.toNat - 48)) cs else acc

/-- Value of the longest leading digit run; `none` (= `NaN`) when the first
character is not a digit. -/
def digitsVal : List Char → Option Nat
  | [] => none
  | c :: cs => if c.isDigit then some (digitsAcc (c.toNat - 48) cs) else none

/-- JS `parseInt(s)` restricted to the decimal strings that occur in
schedule data: an optional sign followed by digits; `none` is `NaN`. -/
def parseIntJS (cs : List Char) : Option Int :=
  match cs with
  | [] => none
  | c :: rest =>
    if c = '-' then (digitsVal rest).map (fun n => -(n : Int))
    else if c = '+' then (digitsVal rest).map (fun n => (n : Int))
    else (digitsVal (c :: rest)).map (fun n => (n : Int))

/-- JS `str.split(sep)` for a single-character separator, on the character
list of the string. -/
def splitCh (sep : Char) : List Char → List (List Char)
  | [] => [[]]
  | c :: cs =>
    let r := splitCh sep cs
    if c = sep then [] :: r
    else (c :: r.headD []) :: r.tail

/-- `ContactManager.timeStringToNumber` (contact-manager.js:103-107):
`if (!timeStr) return 0;` then split on `':'` and compute
`parseInt(hours) * 100 + parseInt(minutes)`.  A missing minutes part is
`parseInt(undefined) = NaN`; `none` is the `NaN` result. -/
def timeStringToNumber (timeStr : String) : Option Int :=
  if timeStr = "" then some 0
  else
    match (splitCh ':' timeStr.toList).map parseIntJS with
    | some h :: some m :: _ => some (h * 100 + m)
    | _ => none

/-- One day's `{open, close}` window as it sits in the fetched JSON;
either field may be absent. -/
structure DayWindow where
  «open» : Option String
  close : Option String
deriving DecidableEq

/-- One unit's schedule: day-name-keyed windows (including the optional
`"default"` key) plus the optional `emergency` free-text field. -/
structure UnitSchedule where
  days : List (String × DayWindow)
  emergency : Option String
deriving DecidableEq

/-- JS `a >= b` where either side may be `NaN` (comparison with `NaN` is
false). -/
def numGe : Option Int → Option Int → Bool
  | some a, some b => a ≥ b
  | _, _ => false

/-- JS `a < b` where either side may be `NaN`. -/
def numLt : Option Int → Option Int → Bool
  | some a, some b => a < b
  | _, _ => false

/-- `hours[dayOfWeek] || hours['default']` (contact-manager.js:85). -/
def resolvedDay (hours : UnitSchedule) (dayOfWeek : String) : Option DayWindow :=
  jsOr (alookup hours.days dayOfWeek) (alookup hours.days "default")

/-- Body of the `forEach` in `ContactManager.checkCurrentStatus`
(contact-manager.js:85-93) for one unit: `some status` when the guard
`dayHours && dayHours.open && dayHours.close` passes and a status is
written, `none` when nothing is written for the unit. -/
def checkUnit (currentTime : Int) (dayOfWeek : String) (hours : UnitSchedule) :
    Option String :=
  match resolvedDay hours dayOfWeek with
  | none => none
  | some dayHours =>
    match dayHours.«open», dayHours.close with
    | some o, some c =>
      if o ≠ "" ∧ c ≠ "" then
        let openTime := timeStringToNumber o
        let closeTime := timeStringToNumber c
        some (if numGe (some currentTime) openTime && numLt (some currentTime) closeTime
              then "open" else "closed")
      else none
    | _, _ => none

/-- `ContactManager.checkCurrentStatus` (contact-manager.js:77-98) with the
ambient inputs made explicit: `currentTime = hours*100 + minutes` of `now`,
`dayOfWeek` its weekday name, and `currentStatus` the instance field the
loop mutates.  Returns the updated `currentStatus` map. -/
def checkCurrentStatus (hoursData : List (String × UnitSchedule))
    (currentTime : Int) (dayOfWeek : String)
    (currentStatus : List (String × String)) : List (String × String) :=
  match hoursData with
  | [] => currentStatus
  | (unit, hours) :: rest =>
    let st :=
      match checkUnit currentTime dayOfWeek hours with
      | some s => setKey currentStatus unit s
      | none => currentStatus
    checkCurrentStatus rest currentTime dayOfWeek st

/-- One rendered line of an hours card: a `time-slot` day line or the
emergency line. -/
inductive DisplayLine where
  | timeSlot (day openStr closeStr : String)
  | emergencySlot (text : String)
deriving DecidableEq

/-- The fixed `days` array of `createHoursCard` (contact-manager.js:145). -/
def weekDays : List String :=
  ["Monday", "Tuesday", "Wednesday", "Thursday", "Friday", "Saturday", "Sunday"]

/-- The day line the `days.forEach` body of `createHoursCard`
(contact-manager.js:147-156) renders for one weekday: a `time-slot` when
`hours[day]` exists with truthy `open` and `close`, nothing otherwise. -/
def cardDayLine (hours : UnitSchedule) (day : String) : Option DisplayLine :=
  match alookup hours.days day with
  | some dayHours =>
    if truthyS dayHours.«open» && truthyS dayHours.close then
      some (DisplayLine.timeSlot day (dayHours.«open».getD "") (dayHours.close.getD ""))
    else none
  | none => none

/-- The sequence of hour lines `createHoursCard` renders into `hoursHtml`
(contact-manager.js:144-165): one `time-slot` per fixed-order weekday whose
window has truthy `open` and `close`, then the emergency line when
`hours.emergency` is truthy. -/
def createHoursCardLines (hours : UnitSchedule) : List DisplayLine :=
  weekDays.filterMap (cardDayLine hours)
  ++ (match hours.emergency with
      | some e => if e ≠ "" then [DisplayLine.emergencySlot e] else []
      | none => [])

/-- The status badge value `createHoursCard` uses
(contact-manager.js:140): `this.currentStatus[unit] || 'open'`. -/
def createHoursCardStatus (currentStatus : List (String × String))
    (unit : String) : String :=
  match jsOr (alookup currentStatus unit) (some "open") with
  | some s => s
  | none => "open"

/-- Decomposition of a wall-clock instant: the `HHMM` integer
`now.getHours() * 100 + now.getMinutes()` expressed from
minutes-since-midnight `n ∈ [0, 1439]`. -/
def hhmmOfMinutes (n : Nat) : Int :=
  ((n / 60) * 100 + n % 60 : Nat)

/-- A digit character. -/
def digitChar (n : Nat) : Char :=
  match n with
  | 0 => '0' | 1 => '1' | 2 => '2' | 3 => '3' | 4 => '4'
  | 5 => '5' | 6 => '6' | 7 => '7' | 8 => '8' | _ => '9'

/-- A well-formed zero-padded `"HH:MM"` string built from an hour and a
minute value. -/
def fmtTime (h m : Nat) : String :=
  ⟨[digitChar (h / 10), digitChar (h % 10), ':', digitChar (m / 10), digitChar (m % 10)]⟩

/-- Spec-side open test, modelled from the spec's words: a unit is open iff
`openMinutes <= nowMinutes < closeMinutes` over minutes-since-midnight. -/
def specIsOpen (openMin closeMin nowMin : Nat) : Bool :=
  openMin ≤ nowMin && nowMin < closeMin

/-- Last `some` element of a list of optional writes (later writes win). -/
def lastSome : List (Option String) → Option String
  | [] => none
  | a :: rest => jsOr (lastSome rest) a

/-- The status the `checkCurrentStatus` loop leaves for key `u`: the last
successful write among the schedule entries keyed `u`. -/
def unitResult (sched : List (String × UnitSchedule)) (ct : Int) (day : String)
    (u : String) : Option String :=
  lastSome (sched.map (fun p => if p.1 = u then checkUnit ct day p.2 else none))

/-- The weekday a display line is for, when it is a day line. -/
def lineDay : DisplayLine → Option String
  | .timeSlot d _ _ => some d
  | .emergencySlot _ => none

/-- Whether a display line is the emergency line. -/
def isEmergencySlot : DisplayLine → Bool
  | .timeSlot _ _ _ => false
  | .emergencySlot _ => true

/-! ## Basic lemmas on the JS-object model -/

@[simp] theorem jsOr_none {α : Type} (b : Option α) : jsOr none b = b := rfl

@[simp] theorem jsOr_some {α : Type} (a : α) (b : Option α) :
    jsOr (some a) b = some a := rfl

@[simp] theorem jsOr_none_right {α : Type} (a : Option α) : jsOr a none = a := by
  cases a <;> rfl

theorem jsOr_assoc {α : Type} (a b c : Option α) :
    jsOr (jsOr a b) c = jsOr a (jsOr b c) := by
  cases a <;> cases b <;> rfl

@[simp] theorem alookup_nil {α : Type} (k : String) :
    alookup ([] : List (String × α)) k = none := rfl

theorem alookup_cons {α : Type} (p : String × α) (ps : List (String × α)) (k : String) :
    alookup (p :: ps) k = if p.1 = k then some p.2 else alookup ps k := rfl

theorem alookup_append {α : Type} (l₁ l₂ : List (String × α)) (k : String) :
    alookup (l₁ ++ l₂) k = jsOr (alookup l₁ k) (alookup l₂ k) := by
  induction l₁ with
  | nil => simp
  | cons p ps ih =>
    simp only [List.cons_append, alookup_cons, ih]
    split <;> simp

@[simp] theorem keys_nil {α : Type} : keys ([] : List (String × α)) = [] := rfl

@[simp] theorem keys_cons {α : Type} (p : String × α) (ps : List (String × α)) :
    keys (p :: ps) = p.1 :: keys ps := rfl

theorem keys_append {α : Type} (l₁ l₂ : List (String × α)) :
    keys (l₁ ++ l₂) = keys l₁ ++ keys l₂ := by
  simp [keys]

theorem alookup_eq_none_of_not_mem_keys {α : Type} {l : List (String × α)} {k : String}
    (h : k ∉ keys l) : alookup l k = none := by
  induction l with
  | nil => rfl
  | cons p ps ih =>
    rw [keys_cons, List.mem_cons, not_or] at h
    rw [alookup_cons, if_neg (fun hh => h.1 hh.symm), ih h.2]

theorem mem_keys_of_alookup_eq_some {α : Type} {l : List (String × α)} {k : String}
    {v : α} (h : alookup l k = some v) : k ∈ keys l := by
  by_contra hk
  rw [alookup_eq_none_of_not_mem_keys hk] at h
  exact Option.noConfusion h

theorem alookup_setKey {α : Type} (l : List (String × α)) (k : String) (v : α)
    (u : String) :
    alookup (setKey l k v) u = if k = u then some v else alookup l u := by
  induction l with
  | nil => simp [setKey, alookup_cons]
  | cons p ps ih =>
    by_cases hp : p.1 = k
    · subst hp
      simp only [setKey, if_pos rfl]
      by_cases hu : p.1 = u
      · subst hu
        simp [alookup_cons]
      · simp [alookup_cons, hu]
    · simp only [setKey, if_neg hp, alookup_cons, ih]
      by_cases hu : p.1 = u
      · have hku : ¬ k = u := fun h => hp (hu.trans h.symm)
        simp [hu, hku]
      · simp [hu]

theorem setKey_of_absent {α : Type} {l : List (String × α)} {k : String}
    (h : alookup l k = none) (v : α) : setKey l k v = l ++ [(k, v)] := by
  induction l with
  | nil => rfl
  | cons p ps ih =>
    rw [alookup_cons] at h
    by_cases hp : p.1 = k
    · simp [hp] at h
    · simp only [setKey, if_neg hp, List.cons_append]
      rw [ih (by simpa [hp] using h)]

theorem keys_setKey_of_present {α : Type} {l : List (String × α)} {k : String}
    (h : k ∈ keys l) (v : α) : keys (setKey l k v) = keys l := by
  induction l with
  | nil => simp at h
  | cons p ps ih =>
    by_cases hp : p.1 = k
    · simp only [setKey, if_pos hp, keys_cons]
      rw [hp]
    · rw [keys_cons, List.mem_cons] at h
      rcases h with h | h
      · exact absurd h.symm hp
      · simp only [setKey, if_neg hp, keys_cons, ih h]

theorem setKey_cons {α : Type} (p : String × α) (ps : List (String × α))
    (k : String) (v : α) :
    setKey (p :: ps) k v = if p.1 = k then (k, v) :: ps else p :: setKey ps k v := rfl

theorem mem_keys_setKey {α : Type} (l : List (String × α)) (k : String) (v : α)
    (u : String) : u ∈ keys (setKey l k v) ↔ u ∈ keys l ∨ u = k := by
  induction l with
  | nil => simp [setKey]
  | cons p ps ih =>
    by_cases hp : p.1 = k
    · rw [setKey_cons, if_pos hp, keys_cons, keys_cons]
      simp only [List.mem_cons, hp]
      tauto
    · rw [setKey_cons, if_neg hp, keys_cons, keys_cons]
      simp only [List.mem_cons, ih]
      tauto

theorem nodup_keys_setKey {α : Type} {l : List (String × α)} (k : String) (v : α)
    (h : (keys l).Nodup) : (keys (setKey l k v)).Nodup := by
  induction l with
  | nil => simp [setKey]
  | cons p ps ih =>
    rw [keys_cons, List.nodup_cons] at h
    by_cases hp : p.1 = k
    · rw [setKey_cons, if_pos hp, keys_cons, List.nodup_cons]
      exact ⟨hp ▸ h.1, h.2⟩
    · rw [setKey_cons, if_neg hp, keys_cons, List.nodup_cons]
      refine ⟨?_, ih h.2⟩
      intro hmem
      rcases (mem_keys_setKey ps k v p.1).mp hmem with hm | hm
      · exact h.1 hm
      · exact hp hm

/-! ## Characterisation of the `checkCurrentStatus` loop -/

theorem checkCurrentStatus_nil (ct : Int) (day : String) (st : List (String × String)) :
    checkCurrentStatus [] ct day st = st := rfl

theorem checkCurrentStatus_cons_some {ct : Int} {day k : String} {hs : UnitSchedule}
    {s : String} (rest : List (String × UnitSchedule)) (st : List (String × String))
    (h : checkUnit ct day hs = some s) :
    checkCurrentStatus ((k, hs) :: rest) ct day st =
      checkCurrentStatus rest ct day (setKey st k s) := by
  simp [checkCurrentStatus, h]

theorem checkCurrentStatus_cons_none {ct : Int} {day k : String} {hs : UnitSchedule}
    (rest : List (String × UnitSchedule)) (st : List (String × String))
    (h : checkUnit ct day hs = none) :
    checkCurrentStatus ((k, hs) :: rest) ct day st =
      checkCurrentStatus rest ct day st := by
  simp [checkCurrentStatus, h]

theorem unitResult_cons (k : String) (hs : UnitSchedule)
    (rest : List (String × UnitSchedule)) (ct : Int) (day u : String) :
    unitResult ((k, hs) :: rest) ct day u =
      jsOr (unitResult rest ct day u) (if k = u then checkUnit ct day hs else none) := rfl

/-- Pointwise semantics of one evaluation pass: the entry for `u` afterwards
is the last successful write for `u`, and the prior entry where no write
happened. -/
theorem alookup_checkCurrentStatus (ct : Int) (day : String) :
    ∀ (sched : List (String × UnitSchedule)) (st : List (String × String)) (u : String),
      alookup (checkCurrentStatus sched ct day st) u =
        jsOr (unitResult sched ct day u) (alookup st u) := by
  intro sched
  induction sched with
  | nil => intro st u; simp [checkCurrentStatus_nil, unitResult, lastSome]
  | cons p rest ih =>
    intro st u
    obtain ⟨k, hs⟩ := p
    rw [unitResult_cons, jsOr_assoc]
    cases hcu : checkUnit ct day hs with
    | none =>
      rw [checkCurrentStatus_cons_none rest st hcu, ih]
      by_cases hk : k = u <;> simp [hk]
    | some s =>
      rw [checkCurrentStatus_cons_some rest st hcu, ih, alookup_setKey]
      by_cases hk : k = u
      · simp only [hk, if_pos rfl]
        cases unitResult rest ct day u <;> rfl
      · simp [hk]

theorem mem_keys_of_mem {α : Type} {l : List (String × α)} {u : String} {v : α}
    (h : (u, v) ∈ l) : u ∈ keys l :=
  List.mem_map_of_mem Prod.fst h

theorem unitResult_eq_none_of_not_mem {sched : List (String × UnitSchedule)}
    {u : String} (h : u ∉ keys sched) (ct : Int) (day : String) :
    unitResult sched ct day u = none := by
  induction sched with
  | nil => rfl
  | cons p rest ih =>
    obtain ⟨k, hs⟩ := p
    rw [keys_cons, List.mem_cons, not_or] at h
    rw [unitResult_cons, if_neg (fun hh => h.1 hh.symm), jsOr_none_right, ih h.2]

/-- With distinct unit keys, the final status write for a unit is exactly
that unit's `checkUnit` outcome. -/
theorem unitResult_of_mem_nodup {sched : List (String × UnitSchedule)}
    {u : String} {us : UnitSchedule} (hnd : (keys sched).Nodup)
    (hmem : (u, us) ∈ sched) (ct : Int) (day : String) :
    unitResult sched ct day u = checkUnit ct day us := by
  induction sched with
  | nil => cases hmem
  | cons p rest ih =>
    obtain ⟨k, hs⟩ := p
    rw [keys_cons, List.nodup_cons] at hnd
    rcases List.mem_cons.mp hmem with h | h
    · have hk : u = k := congrArg Prod.fst h
      have hhs : us = hs := congrArg Prod.snd h
      subst hk
      subst hhs
      rw [unitResult_cons, if_pos rfl,
        unitResult_eq_none_of_not_mem hnd.1 ct day, jsOr_none]
    · have hu : u ∈ keys rest := mem_keys_of_mem h
      have hku : ¬ k = u := fun hh => hnd.1 (hh ▸ hu)
      rw [unitResult_cons, if_neg hku, jsOr_none_right, ih hnd.2 h]

/-- A write for a unit key that occurs in the schedule with a resolvable
window really lands: the loop leaves `some` status for it. -/
theorem unitResult_ne_none_of_mem_some {sched : List (String × UnitSchedule)}
    {u : String} {us : UnitSchedule} {s : String} (hmem : (u, us) ∈ sched)
    {ct : Int} {day : String} (hcu : checkUnit ct day us = some s) :
    unitResult sched ct day u ≠ none := by
  induction sched with
  | nil => cases hmem
  | cons p rest ih =>
    obtain ⟨k, hs⟩ := p
    rw [unitResult_cons]
    rcases List.mem_cons.mp hmem with h | h
    · have hk : u = k := congrArg Prod.fst h
      have hhs : us = hs := congrArg Prod.snd h
      subst hk
      subst hhs
      rw [if_pos rfl, hcu]
      cases unitResult rest ct day u <;> simp [jsOr]
    · cases hr : unitResult rest ct day u with
      | some t => simp [jsOr]
      | none => exact absurd hr (ih h)

/-- Structure of one evaluation pass over fresh keys: starting from a map
that mentions none of the schedule's unit keys, the pass appends exactly
the successful per-unit writes, in schedule order. -/
theorem checkCurrentStatus_eq_append (ct : Int) (day : String) :
    ∀ (sched : List (String × UnitSchedule)) (st : List (String × String)),
      (keys sched).Nodup → (∀ p ∈ sched, alookup st p.1 = none) →
      checkCurrentStatus sched ct day st =
        st ++ sched.filterMap
          (fun p => (checkUnit ct day p.2).map (fun s => (p.1, s))) := by
  intro sched
  induction sched with
  | nil => intro st _ _; simp [checkCurrentStatus_nil]
  | cons p rest ih =>
    intro st hnd habs
    obtain ⟨k, hs⟩ := p
    rw [keys_cons, List.nodup_cons] at hnd
    cases hcu : checkUnit ct day hs with
    | none =>
      rw [checkCurrentStatus_cons_none rest st hcu,
        ih st hnd.2 (fun q hq => habs q (List.mem_cons_of_mem _ hq))]
      simp [hcu]
    | some s =>
      rw [checkCurrentStatus_cons_some rest st hcu,
        setKey_of_absent (habs (k, hs) (List.mem_cons_self _ _)) s]
      rw [ih (st ++ [(k, s)]) hnd.2 ?fresh]
      · simp [hcu]
      case fresh =>
        intro q hq
        rw [alookup_append, habs q (List.mem_cons_of_mem _ hq), jsOr_none]
        have hkq : ¬ k = q.1 := fun hh =>
          hnd.1 (by rw [hh]; exact mem_keys_of_mem hq)
        simp [alookup_cons, hkq]

/-- A pass whose successful writes all hit keys already present does not
change the key sequence of the status map. -/
theorem keys_checkCurrentStatus_of_present (ct : Int) (day : String) :
    ∀ (sched : List (String × UnitSchedule)) (st : List (String × String)),
      (∀ p ∈ sched, checkUnit ct day p.2 ≠ none → p.1 ∈ keys st) →
      keys (checkCurrentStatus sched ct day st) = keys st := by
  intro sched
  induction sched with
  | nil => intro st _; rfl
  | cons p rest ih =>
    intro st hpres
    obtain ⟨k, hs⟩ := p
    cases hcu : checkUnit ct day hs with
    | none =>
      rw [checkCurrentStatus_cons_none rest st hcu]
      exact ih st (fun q hq => hpres q (List.mem_cons_of_mem _ hq))
    | some s =>
      rw [checkCurrentStatus_cons_some rest st hcu]
      have hk : k ∈ keys st :=
        hpres (k, hs) (List.mem_cons_self _ _) (by simp [hcu])
      rw [ih (setKey st k s) ?pres, keys_setKey_of_present hk s]
      case pres =>
        intro q hq hq2
        rw [mem_keys_setKey]
        exact Or.inl (hpres q (List.mem_cons_of_mem _ hq) hq2)

theorem nodup_keys_checkCurrentStatus (ct : Int) (day : String) :
    ∀ (sched : List (String × UnitSchedule)) (st : List (String × String)),
      (keys st).Nodup → (keys (checkCurrentStatus sched ct day st)).Nodup := by
  intro sched
  induction sched with
  | nil => intro st h; exact h
  | cons p rest ih =>
    intro st h
    obtain ⟨k, hs⟩ := p
    cases hcu : checkUnit ct day hs with
    | none => rw [checkCurrentStatus_cons_none rest st hcu]; exact ih st h
    | some s =>
      rw [checkCurrentStatus_cons_some rest st hcu]
      exact ih _ (nodup_keys_setKey k s h)

/-- Association lists with the same key sequence, no duplicate keys, and the
same lookups are equal. -/
theorem assoc_ext {α : Type} :
    ∀ (l₁ l₂ : List (String × α)), keys l₁ = keys l₂ → (keys l₁).Nodup →
      (∀ u, alookup l₁ u = alookup l₂ u) → l₁ = l₂ := by
  intro l₁
  induction l₁ with
  | nil =>
    intro l₂ hkeys _ _
    cases l₂ with
    | nil => rfl
    | cons q qs => exact absurd hkeys.symm (by simp)
  | cons p ps ih =>
    intro l₂ hkeys hnd hlook
    cases l₂ with
    | nil => exact absurd hkeys (by simp)
    | cons q qs =>
      rw [keys_cons, keys_cons, List.cons.injEq] at hkeys
      rw [keys_cons, List.nodup_cons] at hnd
      have hv : some p.2 = some q.2 := by
        have := hlook p.1
        rwa [alookup_cons, if_pos rfl, alookup_cons, if_pos hkeys.1.symm] at this
      have hpq : p = q := Prod.ext hkeys.1 (Option.some.inj hv)
      rw [hpq]
      congr 1
      refine ih qs hkeys.2 hnd.2 (fun u => ?_)
      by_cases hu : u = p.1
      · subst hu
        rw [alookup_eq_none_of_not_mem_keys hnd.1,
          alookup_eq_none_of_not_mem_keys (hkeys.2 ▸ hnd.1)]
      · have := hlook u
        rwa [alookup_cons, if_neg (fun hh => hu hh.symm), alookup_cons,
          if_neg (fun hh => hu (hkeys.1.trans hh).symm)] at this

/-- Re-running the evaluation pass immediately with the same inputs leaves
the status map unchanged. -/
theorem checkCurrentStatus_idem (sched : List (String × UnitSchedule))
    (ct : Int) (day : String) (st : List (String × String))
    (hst : (keys st).Nodup) :
    checkCurrentStatus sched ct day (checkCurrentStatus sched ct day st) =
      checkCurrentStatus sched ct day st := by
  refine assoc_ext _ _ ?_ ?_ ?_
  · refine keys_checkCurrentStatus_of_present ct day sched _ ?_
    intro p hp hcu
    obtain ⟨s, hs⟩ := Option.ne_none_iff_exists'.mp hcu
    have : alookup (checkCurrentStatus sched ct day st) p.1 ≠ none := by
      rw [alookup_checkCurrentStatus]
      cases hr : unitResult sched ct day p.1 with
      | some t => simp [jsOr]
      | none => exact absurd hr (unitResult_ne_none_of_mem_some hp hs)
    obtain ⟨t, ht⟩ := Option.ne_none_iff_exists'.mp this
    exact mem_keys_of_alookup_eq_some ht
  · exact nodup_keys_checkCurrentStatus ct day sched _
      (nodup_keys_checkCurrentStatus ct day sched st hst)
  · intro u
    rw [alookup_checkCurrentStatus, alookup_checkCurrentStatus]
    cases unitResult sched ct day u <;> rfl

/-! ## Time parsing and the per-unit comparison -/

theorem fmtTime_ne_empty (h m : Nat) : fmtTime h m ≠ "" := by
  intro hc
  have h5 : (fmtTime h m).data.length = ("" : String).data.length := by rw [hc]
  simp [fmtTime] at h5

/-- `timeStringToNumber` on a well-formed zero-padded `"HH:MM"` string is
the `HHMM` integer. -/
theorem timeStringToNumber_fmtTime :
    ∀ h : Nat, h < 24 → ∀ m : Nat, m < 60 →
      timeStringToNumber (fmtTime h m) = some (((h * 100 + m : Nat) : Int)) := by decide

theorem checkUnit_resolved {us : UnitSchedule} {day : String} {dh : DayWindow}
    (hres : resolvedDay us day = some dh) {o c : String}
    (ho : dh.«open» = some o) (hc : dh.close = some c)
    (hno : o ≠ "") (hnc : c ≠ "") (ct : Int) :
    checkUnit ct day us =
      some (if numGe (some ct) (timeStringToNumber o) &&
                numLt (some ct) (timeStringToNumber c)
            then "open" else "closed") := by
  simp [checkUnit, hres, ho, hc, hno, hnc]

theorem checkUnit_none_of_unresolvable {us : UnitSchedule} {day : String}
    (h : resolvedDay us day = none ∨
      ∃ dh, resolvedDay us day = some dh ∧
        (truthyS dh.«open» = false ∨ truthyS dh.close = false)) (ct : Int) :
    checkUnit ct day us = none := by
  rcases h with h | ⟨dh, hdh, hbad⟩
  · simp [checkUnit, h]
  · cases hopen : dh.«open» with
    | none => simp [checkUnit, hdh, hopen]
    | some o =>
      cases hclose : dh.close with
      | none => simp [checkUnit, hdh, hopen, hclose]
      | some c =>
        rw [hopen, hclose] at hbad
        simp only [truthyS, decide_eq_false_iff_not, Decidable.not_not] at hbad
        rcases hbad with hbad | hbad <;>
          simp [checkUnit, hdh, hopen, hclose, hbad]

/-! ## Claim theorems -/

/-- C1: for every unit whose resolved `DayWindow` for today has
`open < close` (as minutes since midnight), the evaluation writes `"open"`
exactly when `openMinutes ≤ nowMinutes < closeMinutes`; in particular `now`
at the open minute is open, at the close minute is closed, and one minute
before close is open. -/
theorem claim_C1_half_open_interval {sched : List (String × UnitSchedule)}
    {u day : String} {us : UnitSchedule}
    (hnd : (keys sched).Nodup) (hmem : (u, us) ∈ sched)
    {oh om ch cm : Nat}
    (hres : resolvedDay us day = some ⟨some (fmtTime oh om), some (fmtTime ch cm)⟩)
    (hoh : oh < 24) (hom : om < 60) (hch : ch < 24) (hcm : cm < 60)
    (hlt : oh * 60 + om < ch * 60 + cm) (st : List (String × String)) :
    (∀ n : Nat, n ≤ 1439 →
      alookup (checkCurrentStatus sched (hhmmOfMinutes n) day st) u =
        some (if oh * 60 + om ≤ n ∧ n < ch * 60 + cm then "open" else "closed")) ∧
    alookup (checkCurrentStatus sched (hhmmOfMinutes (oh * 60 + om)) day st) u
      = some "open" ∧
    alookup (checkCurrentStatus sched (hhmmOfMinutes (ch * 60 + cm)) day st) u
      = some "closed" ∧
    alookup (checkCurrentStatus sched (hhmmOfMinutes (ch * 60 + cm - 1)) day st) u
      = some "open" := by
  have main : ∀ n : Nat, n ≤ 1439 →
      alookup (checkCurrentStatus sched (hhmmOfMinutes n) day st) u =
        some (if oh * 60 + om ≤ n ∧ n < ch * 60 + cm then "open" else "closed") := by
    intro n hn
    rw [alookup_checkCurrentStatus, unitResult_of_mem_nodup hnd hmem,
      checkUnit_resolved hres rfl rfl (fmtTime_ne_empty oh om) (fmtTime_ne_empty ch cm),
      timeStringToNumber_fmtTime oh hoh om hom,
      timeStringToNumber_fmtTime ch hch cm hcm]
    have hge : numGe (some (hhmmOfMinutes n)) (some ((oh * 100 + om : Nat) : Int))
        = decide (oh * 60 + om ≤ n) :=
      decide_eq_decide.mpr (by unfold hhmmOfMinutes; omega)
    have hlt2 : numLt (some (hhmmOfMinutes n)) (some ((ch * 100 + cm : Nat) : Int))
        = decide (n < ch * 60 + cm) :=
      decide_eq_decide.mpr (by unfold hhmmOfMinutes; omega)
    rw [hge, hlt2]
    by_cases h1 : oh * 60 + om ≤ n <;> by_cases h2 : n < ch * 60 + cm <;>
      simp [h1, h2, jsOr]
  refine ⟨main, ?_, ?_, ?_⟩
  · rw [main (oh * 60 + om) (by omega), if_pos ⟨le_rfl, hlt⟩]
  · rw [main (ch * 60 + cm) (by omega), if_neg (by omega)]
  · rw [main (ch * 60 + cm - 1) (by omega), if_pos (by omega)]

/-- Closed witness for C1: a restaurant open Monday 07:00-22:00 checked at
07:00, 22:00, 21:59 and 06:59. -/
theorem claim_C1_half_open_interval_witness :
    alookup (checkCurrentStatus
        [("restaurant", ⟨[("Monday", ⟨some "07:00", some "22:00"⟩)], none⟩)]
        (hhmmOfMinutes 420) "Monday" []) "restaurant" = some "open" ∧
    alookup (checkCurrentStatus
        [("restaurant", ⟨[("Monday", ⟨some "07:00", some "22:00"⟩)], none⟩)]
        (hhmmOfMinutes 1320) "Monday" []) "restaurant" = some "closed" ∧
    alookup (checkCurrentStatus
        [("restaurant", ⟨[("Monday", ⟨some "07:00", some "22:00"⟩)], none⟩)]
        (hhmmOfMinutes 419) "Monday" []) "restaurant" = some "closed" := by
  have h := @claim_C1_half_open_interval
    [("restaurant", ⟨[("Monday", ⟨some "07:00", some "22:00"⟩)], none⟩)]
    "restaurant" "Monday" ⟨[("Monday", ⟨some "07:00", some "22:00"⟩)], none⟩
    (by decide) (by decide) 7 0 22 0
    (by decide) (by decide) (by decide) (by decide) (by decide) (by decide) []
  refine ⟨h.2.1, h.2.2.1, ?_⟩
  rw [h.1 419 (by decide), if_neg (by decide)]

/-- C4: for every unit whose resolved `DayWindow` for today has
`openMinutes ≥ closeMinutes` (including `open = close`), the evaluation
writes `"closed"` for every `now`. -/
theorem claim_C4_wraparound_closed {sched : List (String × UnitSchedule)}
    {u day : String} {us : UnitSchedule}
    (hnd : (keys sched).Nodup) (hmem : (u, us) ∈ sched)
    {oh om ch cm : Nat}
    (hres : resolvedDay us day = some ⟨some (fmtTime oh om), some (fmtTime ch cm)⟩)
    (hoh : oh < 24) (hom : om < 60) (hch : ch < 24) (hcm : cm < 60)
    (hge : ch * 60 + cm ≤ oh * 60 + om) (st : List (String × String)) :
    ∀ n : Nat, n ≤ 1439 →
      alookup (checkCurrentStatus sched (hhmmOfMinutes n) day st) u
        = some "closed" := by
  intro n hn
  rw [alookup_checkCurrentStatus, unitResult_of_mem_nodup hnd hmem,
    checkUnit_resolved hres rfl rfl (fmtTime_ne_empty oh om) (fmtTime_ne_empty ch cm),
    timeStringToNumber_fmtTime oh hoh om hom,
    timeStringToNumber_fmtTime ch hch cm hcm]
  have hcond : (numGe (some (hhmmOfMinutes n)) (some ((oh * 100 + om : Nat) : Int)) &&
      numLt (some (hhmmOfMinutes n)) (some ((ch * 100 + cm : Nat) : Int))) = false := by
    rw [Bool.and_eq_false_iff]
    by_cases h1 : oh * 60 + om ≤ n
    · refine Or.inr ?_
      exact decide_eq_decide.mpr (by unfold hhmmOfMinutes; omega) |>.trans
        (decide_eq_false (by omega : ¬ n < ch * 60 + cm))
    · refine Or.inl ?_
      exact decide_eq_decide.mpr (by unfold hhmmOfMinutes; omega) |>.trans
        (decide_eq_false (by omega : ¬ oh * 60 + om ≤ n))
  rw [hcond]
  rfl

/-- Closed witness for C4: the spec's degenerate car-wash window
09:00-09:00 on Monday is closed at 09:00 and at noon. -/
theorem claim_C4_wraparound_closed_witness :
    alookup (checkCurrentStatus
        [("car_wash", ⟨[("Monday", ⟨some "09:00", some "09:00"⟩)], none⟩)]
        (hhmmOfMinutes 540) "Monday" []) "car_wash" = some "closed" ∧
    alookup (checkCurrentStatus
        [("car_wash", ⟨[("Monday", ⟨some "09:00", some "09:00"⟩)], none⟩)]
        (hhmmOfMinutes 720) "Monday" []) "car_wash" = some "closed" := by
  have h := @claim_C4_wraparound_closed
    [("car_wash", ⟨[("Monday", ⟨some "09:00", some "09:00"⟩)], none⟩)]
    "car_wash" "Monday" ⟨[("Monday", ⟨some "09:00", some "09:00"⟩)], none⟩
    (by decide) (by decide) 9 0 9 0
    (by decide) (by decide) (by decide) (by decide) (by decide) (by decide) []
  exact ⟨h 540 (by decide), h 720 (by decide)⟩

theorem lastSome_eq_none {l : List (Option String)} (h : ∀ x ∈ l, x = none) :
    lastSome l = none := by
  induction l with
  | nil => rfl
  | cons a rest ih =>
    have ha := h a (List.mem_cons_self _ _)
    rw [lastSome, ih (fun x hx => h x (List.mem_cons_of_mem _ hx)), ha]
    rfl

theorem unitResult_eq_none_of_unresolvable {sched : List (String × UnitSchedule)}
    {u day : String}
    (h : ∀ us, (u, us) ∈ sched → resolvedDay us day = none ∨
      ∃ dh, resolvedDay us day = some dh ∧
        (truthyS dh.«open» = false ∨ truthyS dh.close = false)) (ct : Int) :
    unitResult sched ct day u = none := by
  refine lastSome_eq_none (fun x hx => ?_)
  obtain ⟨p, hp, hpx⟩ := List.mem_map.mp hx
  by_cases hk : p.1 = u
  · rw [← hpx, if_pos hk]
    exact checkUnit_none_of_unresolvable (h p.2 (by rw [← hk]; exact hp)) ct
  · rw [← hpx, if_neg hk]

/-- C10: one evaluation pass writes only units whose resolved day data has
truthy `open` and `close`; a unit all of whose schedule entries lack a
resolvable window keeps exactly its previous status entry. -/
theorem claim_C10_unwritten_entry_persists {sched : List (String × UnitSchedule)}
    {u day : String}
    (h : ∀ us, (u, us) ∈ sched → resolvedDay us day = none ∨
      ∃ dh, resolvedDay us day = some dh ∧
        (truthyS dh.«open» = false ∨ truthyS dh.close = false))
    (ct : Int) (st : List (String × String)) :
    alookup (checkCurrentStatus sched ct day st) u = alookup st u := by
  rw [alookup_checkCurrentStatus, unitResult_eq_none_of_unresolvable h ct, jsOr_none]

/-- Closed witness for C10: a service bay with only a Tuesday window keeps
its previously computed `"closed"` entry on Monday. -/
theorem claim_C10_unwritten_entry_persists_witness :
    alookup (checkCurrentStatus
        [("service_bay", ⟨[("Tuesday", ⟨some "08:00", none⟩)], none⟩)]
        (hhmmOfMinutes 720) "Monday" [("service_bay", "closed")]) "service_bay"
      = alookup [("service_bay", "closed")] "service_bay" := by
  refine claim_C10_unwritten_entry_persists (fun us hmem => ?_) (hhmmOfMinutes 720)
    [("service_bay", "closed")]
  have hus : us = (⟨[("Tuesday", ⟨some "08:00", none⟩)], none⟩ : UnitSchedule) := by
    simpa using congrArg Prod.snd (List.mem_singleton.mp hmem)
  subst hus
  exact Or.inl (by decide)

/-- C2 counterexample: a unit with neither today's weekday entry nor a
`"default"` entry is not treated as `Closed`: no status entry is written
for it (from a fresh state its lookup stays `none`) and the hours card
then badges it `"open"`. -/
theorem claim_C2_counterexample :
    alookup (checkCurrentStatus [("restaurant", ⟨[], none⟩)]
        (hhmmOfMinutes 720) "Monday" []) "restaurant" = none ∧
    createHoursCardStatus (checkCurrentStatus [("restaurant", ⟨[], none⟩)]
        (hhmmOfMinutes 720) "Monday" []) "restaurant" = "open" := by
  constructor <;> decide

/-- C2 amended: today's lookup does fall back to `"default"`, and one unit
lacking today's data never fails the evaluation of the others; but when
both are absent the unit gets no status entry at all — its prior entry
persists, and from a fresh state the card badge defaults to `"open"`,
not `"closed"`. -/
theorem claim_C2_amended {sched : List (String × UnitSchedule)} {u day : String}
    {us : UnitSchedule} (hnd : (keys sched).Nodup) (hmem : (u, us) ∈ sched)
    (hday : alookup us.days day = none) (hdef : alookup us.days "default" = none)
    (ct : Int) (st : List (String × String)) :
    resolvedDay us day = jsOr (alookup us.days day) (alookup us.days "default") ∧
    checkUnit ct day us = none ∧
    alookup (checkCurrentStatus sched ct day st) u = alookup st u ∧
    createHoursCardStatus (checkCurrentStatus sched ct day []) u = "open" ∧
    (∀ v vs, (v, vs) ∈ sched →
      alookup (checkCurrentStatus sched ct day st) v =
        jsOr (checkUnit ct day vs) (alookup st v)) := by
  have hres : resolvedDay us day = none := by
    rw [resolvedDay, hday, hdef]
    rfl
  have hcu : checkUnit ct day us = none :=
    checkUnit_none_of_unresolvable (Or.inl hres) ct
  refine ⟨rfl, hcu, ?_, ?_, ?_⟩
  · rw [alookup_checkCurrentStatus, unitResult_of_mem_nodup hnd hmem, hcu, jsOr_none]
  · have hnone : alookup (checkCurrentStatus sched ct day []) u = none := by
      rw [alookup_checkCurrentStatus, unitResult_of_mem_nodup hnd hmem, hcu]
      rfl
    rw [createHoursCardStatus, hnone]
    rfl
  · intro v vs hv
    rw [alookup_checkCurrentStatus, unitResult_of_mem_nodup hnd hv]

/-- Closed witness for C2 amended: restaurant (no data) keeps its old
entry and badges `"open"` from fresh state while supermarket still
evaluates. -/
theorem claim_C2_amended_witness :
    alookup (checkCurrentStatus
        [("restaurant", ⟨[], none⟩),
         ("supermarket", ⟨[("default", ⟨some "08:00", some "20:00"⟩)], none⟩)]
        (hhmmOfMinutes 720) "Monday" [("restaurant", "closed")]) "restaurant"
      = alookup [("restaurant", "closed")] "restaurant" ∧
    createHoursCardStatus (checkCurrentStatus
        [("restaurant", ⟨[], none⟩),
         ("supermarket", ⟨[("default", ⟨some "08:00", some "20:00"⟩)], none⟩)]
        (hhmmOfMinutes 720) "Monday" []) "restaurant" = "open" := by
  have h := @claim_C2_amended
    [("restaurant", ⟨[], none⟩),
     ("supermarket", ⟨[("default", ⟨some "08:00", some "20:00"⟩)], none⟩)]
    "restaurant" "Monday" ⟨[], none⟩
    (by decide) (by decide) (by decide) (by decide)
    (hhmmOfMinutes 720) [("restaurant", "closed")]
  refine ⟨h.2.2.1, ?_⟩
  exact (@claim_C2_amended
    [("restaurant", ⟨[], none⟩),
     ("supermarket", ⟨[("default", ⟨some "08:00", some "20:00"⟩)], none⟩)]
    "restaurant" "Monday" ⟨[], none⟩
    (by decide) (by decide) (by decide) (by decide)
    (hhmmOfMinutes 720) []).2.2.2.1

/-- C5 counterexample: a schedule with one unit key whose data is
unresolvable yields a result mapping with no entry for that key from a
fresh state — not "exactly one entry per unit key present in the
schedule". -/
theorem claim_C5_counterexample :
    checkCurrentStatus [("supermarket", ⟨[], none⟩)]
        (hhmmOfMinutes 720) "Monday" [] = [] ∧
    alookup (checkCurrentStatus [("supermarket", ⟨[], none⟩)]
        (hhmmOfMinutes 720) "Monday" []) "supermarket" = none := by
  constructor <;> decide

/-- C5 amended: from an empty status map, the result contains exactly one
entry per unit key whose resolved day data yields a status (and none for
the other schedule keys or for keys not in the schedule), in schedule
iteration order; the empty schedule yields the empty mapping. -/
theorem claim_C5_amended (sched : List (String × UnitSchedule)) (ct : Int)
    (day : String) (hnd : (keys sched).Nodup) :
    checkCurrentStatus sched ct day [] =
      sched.filterMap
        (fun p => (checkUnit ct day p.2).map (fun s => (p.1, s))) := by
  have h := checkCurrentStatus_eq_append ct day sched [] hnd (fun p _ => rfl)
  rwa [List.nil_append] at h

/-- Closed witness for C5 amended: a mixed schedule produces exactly the
resolvable units' entries in order. -/
theorem claim_C5_amended_witness :
    checkCurrentStatus
        [("restaurant", ⟨[("Monday", ⟨some "07:00", some "22:00"⟩)], none⟩),
         ("car_wash", ⟨[], none⟩),
         ("supermarket", ⟨[("default", ⟨some "08:00", some "20:00"⟩)], none⟩)]
        (hhmmOfMinutes 720) "Monday" []
      = [("restaurant", "open"), ("supermarket", "open")] := by
  rw [claim_C5_amended _ _ _ (by decide)]
  decide

/-- C6 counterexample: with the same `(schedule, now)` pair but different
previously computed status state, the resulting mapping differs — the
evaluation is not a pure function of `(schedule, now)` alone. -/
theorem claim_C6_counterexample :
    checkCurrentStatus [("service_bay", ⟨[], none⟩)]
        (hhmmOfMinutes 720) "Monday" [("service_bay", "closed")] ≠
      checkCurrentStatus [("service_bay", ⟨[], none⟩)]
        (hhmmOfMinutes 720) "Monday" [] := by
  decide

/-- C6 amended: the evaluation is deterministic in `(schedule, now,
prior status map)` and idempotent — immediately re-running it with the
same `(schedule, now)` leaves the status map exactly unchanged — but
units without resolvable today-data retain their prior entries, so the
output is not independent of the prior status state. -/
theorem claim_C6_idempotent (sched : List (String × UnitSchedule)) (ct : Int)
    (day : String) (st : List (String × String)) (hst : (keys st).Nodup) :
    checkCurrentStatus sched ct day (checkCurrentStatus sched ct day st) =
      checkCurrentStatus sched ct day st :=
  checkCurrentStatus_idem sched ct day st hst

/-- Closed witness for C6 amended: re-running on a mixed schedule from a
non-trivial prior state changes nothing. -/
theorem claim_C6_idempotent_witness :
    checkCurrentStatus
        [("restaurant", ⟨[("Monday", ⟨some "07:00", some "22:00"⟩)], none⟩),
         ("car_wash", ⟨[], none⟩)]
        (hhmmOfMinutes 720) "Monday"
        (checkCurrentStatus
          [("restaurant", ⟨[("Monday", ⟨some "07:00", some "22:00"⟩)], none⟩),
           ("car_wash", ⟨[], none⟩)]
          (hhmmOfMinutes 720) "Monday" [("car_wash", "open")])
      = checkCurrentStatus
          [("restaurant", ⟨[("Monday", ⟨some "07:00", some "22:00"⟩)], none⟩),
           ("car_wash", ⟨[], none⟩)]
          (hhmmOfMinutes 720) "Monday" [("car_wash", "open")] :=
  claim_C6_idempotent _ _ _ [("car_wash", "open")] (by decide)

/-- C3 counterexample: a malformed close time `"25:70"` is not treated as
absent — the unit still gets a status, and it is `"open"` at Monday noon
(since `parseInt` yields 2570), while the rest of the schedule evaluates
normally. -/
theorem claim_C3_counterexample :
    checkCurrentStatus
        [("u1", ⟨[("Monday", ⟨some "08:00", some "25:70"⟩)], none⟩),
         ("u2", ⟨[("Monday", ⟨some "09:00", some "17:00"⟩)], none⟩)]
        (hhmmOfMinutes 720) "Monday" []
      = [("u1", "open"), ("u2", "open")] := by decide

/-- C3 amended: malformed time strings are not validated and the day is
not treated as absent — whenever both fields are truthy a status is still
written.  A part that parses to `NaN` (no leading digit, e.g. `"ab"`)
makes the comparisons false, so the unit reads `"closed"`; but a
numerically out-of-range string such as close `"25:70"` participates as
2570, so with open `"08:00"` the unit reads `"open"` for every `now` from
08:00 to end of day.  No error is thrown and the rest of the schedule
evaluates normally. -/
theorem claim_C3_amended :
    (∀ (sched : List (String × UnitSchedule)) (u day : String) (us : UnitSchedule),
      (keys sched).Nodup → (u, us) ∈ sched →
      resolvedDay us day = some ⟨some "08:00", some "25:70"⟩ →
      ∀ n : Nat, 480 ≤ n → n ≤ 1439 → ∀ st,
        alookup (checkCurrentStatus sched (hhmmOfMinutes n) day st) u
          = some "open") ∧
    (∀ (sched : List (String × UnitSchedule)) (u day : String) (us : UnitSchedule),
      (keys sched).Nodup → (u, us) ∈ sched →
      resolvedDay us day = some ⟨some "08:00", some "ab"⟩ →
      ∀ n : Nat, n ≤ 1439 → ∀ st,
        alookup (checkCurrentStatus sched (hhmmOfMinutes n) day st) u
          = some "closed") ∧
    (∀ (ct : Int) (day : String) (us : UnitSchedule) (dh : DayWindow)
      (o c : String), resolvedDay us day = some dh → dh.«open» = some o →
      dh.close = some c → o ≠ "" → c ≠ "" →
      ∃ s, checkUnit ct day us = some s) := by
  refine ⟨?_, ?_, ?_⟩
  · intro sched u day us hnd hmem hres n h480 h1439 st
    rw [alookup_checkCurrentStatus, unitResult_of_mem_nodup hnd hmem,
      checkUnit_resolved hres rfl rfl (by decide) (by decide),
      show timeStringToNumber "08:00" = some 800 from by decide,
      show timeStringToNumber "25:70" = some 2570 from by decide]
    have hge : numGe (some (hhmmOfMinutes n)) (some (800 : Int)) = true := by
      simp only [numGe, ge_iff_le, decide_eq_true_eq]
      unfold hhmmOfMinutes
      omega
    have hlt : numLt (some (hhmmOfMinutes n)) (some (2570 : Int)) = true := by
      simp only [numLt, decide_eq_true_eq]
      unfold hhmmOfMinutes
      omega
    rw [hge, hlt]
    rfl
  · intro sched u day us hnd hmem hres n h1439 st
    rw [alookup_checkCurrentStatus, unitResult_of_mem_nodup hnd hmem,
      checkUnit_resolved hres rfl rfl (by decide) (by decide),
      show timeStringToNumber "ab" = none from by decide,
      show numLt (some (hhmmOfMinutes n)) none = false from rfl,
      Bool.and_false]
    rfl
  · intro ct day us dh o c hres ho hc hno hnc
    exact ⟨_, checkUnit_resolved hres ho hc hno hnc ct⟩

/-- Closed witness for C3 amended: the out-of-range close `"25:70"` reads
open at Monday noon; the `NaN` close `"ab"` reads closed at Monday noon. -/
theorem claim_C3_amended_witness :
    alookup (checkCurrentStatus
        [("u1", ⟨[("Monday", ⟨some "08:00", some "25:70"⟩)], none⟩)]
        (hhmmOfMinutes 720) "Monday" []) "u1" = some "open" ∧
    alookup (checkCurrentStatus
        [("u3", ⟨[("Monday", ⟨some "08:00", some "ab"⟩)], none⟩)]
        (hhmmOfMinutes 720) "Monday" []) "u3" = some "closed" := by
  constructor
  · exact claim_C3_amended.1
      [("u1", ⟨[("Monday", ⟨some "08:00", some "25:70"⟩)], none⟩)]
      "u1" "Monday" ⟨[("Monday", ⟨some "08:00", some "25:70"⟩)], none⟩
      (by decide) (by decide) (by decide) 720 (by decide) (by decide) []
  · exact claim_C3_amended.2.1
      [("u3", ⟨[("Monday", ⟨some "08:00", some "ab"⟩)], none⟩)]
      "u3" "Monday" ⟨[("Monday", ⟨some "08:00", some "ab"⟩)], none⟩
      (by decide) (by decide) (by decide) 720 (by decide) []

/-- General status formula for a unit whose resolved window today is a
well-formed zero-padded pair: the written status is exactly the half-open
minutes-interval test. -/
theorem alookup_checkCurrentStatus_wellformed {sched : List (String × UnitSchedule)}
    {u day : String} {us : UnitSchedule}
    (hnd : (keys sched).Nodup) (hmem : (u, us) ∈ sched)
    {oh om ch cm : Nat}
    (hres : resolvedDay us day = some ⟨some (fmtTime oh om), some (fmtTime ch cm)⟩)
    (hoh : oh < 24) (hom : om < 60) (hch : ch < 24) (hcm : cm < 60)
    (st : List (String × String)) (n : Nat) (_hn : n ≤ 1439) :
    alookup (checkCurrentStatus sched (hhmmOfMinutes n) day st) u =
      some (if oh * 60 + om ≤ n ∧ n < ch * 60 + cm then "open" else "closed") := by
  rw [alookup_checkCurrentStatus, unitResult_of_mem_nodup hnd hmem,
    checkUnit_resolved hres rfl rfl (fmtTime_ne_empty oh om) (fmtTime_ne_empty ch cm),
    timeStringToNumber_fmtTime oh hoh om hom,
    timeStringToNumber_fmtTime ch hch cm hcm]
  have hge : numGe (some (hhmmOfMinutes n)) (some ((oh * 100 + om : Nat) : Int))
      = decide (oh * 60 + om ≤ n) :=
    decide_eq_decide.mpr (by unfold hhmmOfMinutes; omega)
  have hlt2 : numLt (some (hhmmOfMinutes n)) (some ((ch * 100 + cm : Nat) : Int))
      = decide (n < ch * 60 + cm) :=
    decide_eq_decide.mpr (by unfold hhmmOfMinutes; omega)
  rw [hge, hlt2]
  by_cases h1 : oh * 60 + om ≤ n <;> by_cases h2 : n < ch * 60 + cm <;>
    simp [h1, h2, jsOr]

/-- C8: a unit present only via `"default"` (no named weekday entry)
resolves to the `default` window on each of the seven weekdays, and when
that window is well-formed the unit gets the `default` window's status on
every day of the week. -/
theorem claim_C8_default_only {sched : List (String × UnitSchedule)}
    {u : String} {us : UnitSchedule}
    (hnd : (keys sched).Nodup) (hmem : (u, us) ∈ sched)
    (hnone : ∀ d ∈ weekDays, alookup us.days d = none) :
    (∀ d ∈ weekDays, resolvedDay us d = alookup us.days "default") ∧
    (∀ oh om ch cm : Nat,
      alookup us.days "default" =
        some ⟨some (fmtTime oh om), some (fmtTime ch cm)⟩ →
      oh < 24 → om < 60 → ch < 24 → cm < 60 →
      ∀ d ∈ weekDays, ∀ n : Nat, n ≤ 1439 → ∀ st,
        alookup (checkCurrentStatus sched (hhmmOfMinutes n) d st) u =
          some (if oh * 60 + om ≤ n ∧ n < ch * 60 + cm
                then "open" else "closed")) := by
  have hfall : ∀ d ∈ weekDays, resolvedDay us d = alookup us.days "default" := by
    intro d hd
    rw [resolvedDay, hnone d hd, jsOr_none]
  refine ⟨hfall, ?_⟩
  intro oh om ch cm hdef hoh hom hch hcm d hd n hn st
  exact alookup_checkCurrentStatus_wellformed hnd hmem
    ((hfall d hd).trans hdef) hoh hom hch hcm st n hn

/-- Closed witness for C8: a restaurant with only a default 08:00-20:00
window is closed Tuesday 07:30 and open Tuesday 19:59. -/
theorem claim_C8_default_only_witness :
    alookup (checkCurrentStatus
        [("restaurant", ⟨[("default", ⟨some "08:00", some "20:00"⟩)], none⟩)]
        (hhmmOfMinutes 450) "Tuesday" []) "restaurant" = some "closed" ∧
    alookup (checkCurrentStatus
        [("restaurant", ⟨[("default", ⟨some "08:00", some "20:00"⟩)], none⟩)]
        (hhmmOfMinutes 1199) "Tuesday" []) "restaurant" = some "open" := by
  have h := (@claim_C8_default_only
    [("restaurant", ⟨[("default", ⟨some "08:00", some "20:00"⟩)], none⟩)]
    "restaurant" ⟨[("default", ⟨some "08:00", some "20:00"⟩)], none⟩
    (by decide) (by decide) (by decide)).2 8 0 20 0
    (by decide) (by decide) (by decide) (by decide) (by decide)
    "Tuesday" (by decide)
  constructor
  · rw [h 450 (by decide) [], if_neg (by decide)]
  · rw [h 1199 (by decide) [], if_pos (by decide)]

/-- C9: on well-formed zero-padded `"HH:MM"` strings the `HHMM` encoding
of `timeStringToNumber` is order-isomorphic to minutes-since-midnight, so
the code's `currentTime >= openTime && currentTime < closeTime` comparison
computes exactly the spec's half-open minutes-interval test. -/
theorem claim_C9_hhmm_refines_minutes (h₁ m₁ h₂ m₂ : Nat)
    (hh₁ : h₁ < 24) (hm₁ : m₁ < 60) (hh₂ : h₂ < 24) (hm₂ : m₂ < 60) :
    (∀ a b : Int, timeStringToNumber (fmtTime h₁ m₁) = some a →
      timeStringToNumber (fmtTime h₂ m₂) = some b →
      (a ≤ b ↔ h₁ * 60 + m₁ ≤ h₂ * 60 + m₂)) ∧
    (∀ n : Nat, n ≤ 1439 →
      (numGe (some (hhmmOfMinutes n)) (timeStringToNumber (fmtTime h₁ m₁)) &&
        numLt (some (hhmmOfMinutes n)) (timeStringToNumber (fmtTime h₂ m₂)))
        = specIsOpen (h₁ * 60 + m₁) (h₂ * 60 + m₂) n) := by
  constructor
  · intro a b ha hb
    rw [timeStringToNumber_fmtTime h₁ hh₁ m₁ hm₁] at ha
    rw [timeStringToNumber_fmtTime h₂ hh₂ m₂ hm₂] at hb
    have ha' := Option.some.inj ha
    have hb' := Option.some.inj hb
    subst ha'
    subst hb'
    constructor <;> (intro h; omega)
  · intro n hn
    rw [timeStringToNumber_fmtTime h₁ hh₁ m₁ hm₁,
      timeStringToNumber_fmtTime h₂ hh₂ m₂ hm₂]
    have hge : numGe (some (hhmmOfMinutes n)) (some ((h₁ * 100 + m₁ : Nat) : Int))
        = decide (h₁ * 60 + m₁ ≤ n) :=
      decide_eq_decide.mpr (by unfold hhmmOfMinutes; omega)
    have hlt2 : numLt (some (hhmmOfMinutes n)) (some ((h₂ * 100 + m₂ : Nat) : Int))
        = decide (n < h₂ * 60 + m₂) :=
      decide_eq_decide.mpr (by unfold hhmmOfMinutes; omega)
    rw [hge, hlt2]
    rfl

/-- Closed witness for C9: 07:00 vs 22:00 agree with the minutes
comparison, checked at 21:59. -/
theorem claim_C9_hhmm_refines_minutes_witness :
    (numGe (some (hhmmOfMinutes 1319)) (timeStringToNumber (fmtTime 7 0)) &&
      numLt (some (hhmmOfMinutes 1319)) (timeStringToNumber (fmtTime 22 0)))
      = specIsOpen (7 * 60 + 0) (22 * 60 + 0) 1319 :=
  (claim_C9_hhmm_refines_minutes 7 0 22 0
    (by decide) (by decide) (by decide) (by decide)).2 1319 (by decide)

/-! ## The hours-card display lines -/

theorem alookup_perm {α : Type} {l₁ l₂ : List (String × α)} (hp : l₁.Perm l₂) :
    ∀ k : String, (keys l₁).Nodup → alookup l₁ k = alookup l₂ k := by
  induction hp with
  | nil => intro k _; rfl
  | cons x hp ih =>
    intro k hnd
    rw [keys_cons, List.nodup_cons] at hnd
    rw [alookup_cons, alookup_cons]
    by_cases hx : x.1 = k
    · simp [hx]
    · simp only [if_neg hx]
      exact ih k hnd.2
  | swap x y l =>
    intro k hnd
    rw [keys_cons, List.nodup_cons] at hnd
    rw [alookup_cons, alookup_cons, alookup_cons, alookup_cons]
    by_cases hy : y.1 = k <;> by_cases hx : x.1 = k
    · exfalso
      exact hnd.1 (by rw [hy.trans hx.symm]; exact List.mem_cons_self _ _)
    · simp [hy, hx]
    · simp [hy, hx]
    · simp [hy, hx]
  | trans hp₁ hp₂ ih₁ ih₂ =>
    intro k hnd
    rw [ih₁ k hnd, ih₂ k (((hp₁.map Prod.fst).nodup_iff).mp hnd)]

theorem cardDayLine_lineDay {us : UnitSchedule} {d : String} {l : DisplayLine}
    (h : cardDayLine us d = some l) : lineDay l = some d := by
  cases ha : alookup us.days d with
  | none => simp [cardDayLine, ha] at h
  | some dh =>
    simp only [cardDayLine, ha] at h
    by_cases ht : (truthyS dh.«open» && truthyS dh.close) = true
    · rw [if_pos ht] at h
      rw [← Option.some.inj h]
      rfl
    · rw [if_neg ht] at h
      exact absurd h (by simp)

theorem cardDayLine_not_emergency {us : UnitSchedule} {d : String}
    {l : DisplayLine} (h : cardDayLine us d = some l) :
    isEmergencySlot l = false := by
  cases ha : alookup us.days d with
  | none => simp [cardDayLine, ha] at h
  | some dh =>
    simp only [cardDayLine, ha] at h
    by_cases ht : (truthyS dh.«open» && truthyS dh.close) = true
    · rw [if_pos ht] at h
      rw [← Option.some.inj h]
      rfl
    · rw [if_neg ht] at h
      exact absurd h (by simp)

theorem filterMap_filterMap_sublist {β : Type} (g : String → Option β)
    (f : β → Option String) (hg : ∀ d l, g d = some l → f l = some d) :
    ∀ l : List String, ((l.filterMap g).filterMap f).Sublist l := by
  intro l
  induction l with
  | nil => simp
  | cons d ds ih =>
    rw [List.filterMap_cons]
    cases hgd : g d with
    | none => exact ih.cons d
    | some line =>
      rw [List.filterMap_cons, hg d line hgd]
      exact ih.cons₂ d

/-- C7: the hours card emits its day lines in the fixed Monday-to-Sunday
order regardless of the key order of the unit's mapping (lines are
invariant under permuting the day keys), a day line appears only for days
whose window has truthy `open` and `close`, and a truthy `emergency`
string contributes exactly one final emergency line after all day lines. -/
theorem claim_C7_display_lines {us us' : UnitSchedule}
    (hp : us.days.Perm us'.days) (hnd : (keys us.days).Nodup)
    (hem : us.emergency = us'.emergency) :
    createHoursCardLines us = createHoursCardLines us' ∧
    ((createHoursCardLines us).filterMap lineDay).Sublist weekDays ∧
    (∀ d o c, DisplayLine.timeSlot d o c ∈ createHoursCardLines us →
      ∃ dh, alookup us.days d = some dh ∧
        truthyS dh.«open» = true ∧ truthyS dh.close = true) ∧
    (∀ e, us.emergency = some e → e ≠ "" →
      ∃ pre, createHoursCardLines us = pre ++ [DisplayLine.emergencySlot e] ∧
        ∀ l ∈ pre, isEmergencySlot l = false) := by
  refine ⟨?_, ?_, ?_, ?_⟩
  · unfold createHoursCardLines
    rw [hem]
    congr 1
    refine List.filterMap_congr (fun d _ => ?_)
    unfold cardDayLine
    rw [alookup_perm hp d hnd]
  · unfold createHoursCardLines
    have hsub := filterMap_filterMap_sublist (cardDayLine us) lineDay
      (fun d l h => cardDayLine_lineDay h) weekDays
    cases he : us.emergency with
    | none => simpa [List.filterMap_append] using hsub
    | some e =>
      by_cases hne : e ≠ ""
      · simpa [List.filterMap_append, hne, lineDay] using hsub
      · simpa [List.filterMap_append, hne] using hsub
  · intro d o c hmem
    unfold createHoursCardLines at hmem
    rcases List.mem_append.mp hmem with hmem | hmem
    · obtain ⟨day, _, hgd⟩ := List.mem_filterMap.mp hmem
      cases ha : alookup us.days day with
      | none => simp [cardDayLine, ha] at hgd
      | some dh =>
        simp only [cardDayLine, ha] at hgd
        by_cases ht : (truthyS dh.«open» && truthyS dh.close) = true
        · rw [if_pos ht] at hgd
          have hd : day = d := by
            simpa [lineDay] using congrArg lineDay (Option.some.inj hgd)
          refine ⟨dh, by rw [← hd]; exact ha, ?_, ?_⟩
          · exact (Bool.and_eq_true _ _).mp ht |>.1
          · exact (Bool.and_eq_true _ _).mp ht |>.2
        · rw [if_neg ht] at hgd
          exact absurd hgd (by simp)
    · exfalso
      cases he : us.emergency with
      | none => rw [he] at hmem; simp at hmem
      | some e =>
        rw [he] at hmem
        by_cases hne : e ≠ "" <;> simp [hne] at hmem
  · intro e he hne
    refine ⟨weekDays.filterMap (cardDayLine us), ?_, ?_⟩
    · unfold createHoursCardLines
      rw [he]
      simp [hne]
    · intro l hl
      obtain ⟨d, _, hgd⟩ := List.mem_filterMap.mp hl
      exact cardDayLine_not_emergency hgd

/-- Closed witness for C7: a unit listed Tuesday-before-Monday renders the
same lines as the Monday-first listing — Monday first, then Tuesday, with
the emergency line last. -/
theorem claim_C7_display_lines_witness :
    createHoursCardLines
        ⟨[("Tuesday", ⟨some "09:00", some "17:00"⟩),
          ("Monday", ⟨some "07:00", some "22:00"⟩)], some "call 0700"⟩
      = createHoursCardLines
        ⟨[("Monday", ⟨some "07:00", some "22:00"⟩),
          ("Tuesday", ⟨some "09:00", some "17:00"⟩)], some "call 0700"⟩ ∧
    createHoursCardLines
        ⟨[("Tuesday", ⟨some "09:00", some "17:00"⟩),
          ("Monday", ⟨some "07:00", some "22:00"⟩)], some "call 0700"⟩
      = [DisplayLine.timeSlot "Monday" "07:00" "22:00",
         DisplayLine.timeSlot "Tuesday" "09:00" "17:00",
         DisplayLine.emergencySlot "call 0700"] := by
  constructor
  · exact (@claim_C7_display_lines
      ⟨[("Tuesday", ⟨some "09:00", some "17:00"⟩),
        ("Monday", ⟨some "07:00", some "22:00"⟩)], some "call 0700"⟩
      ⟨[("Monday", ⟨some "07:00", some "22:00"⟩),
        ("Tuesday", ⟨some "09:00", some "17:00"⟩)], some "call 0700"⟩
      (List.Perm.swap _ _ _) (by decide) rfl).1
  · decide
